import Mathlib

/-!
Verification of the LinguaFriend live voice client.

This file gives a shallow embedding of the realtime voice client of the
repository (class LiveClient in src/App.tsx, plus the ChatInput and header
guards of src/types.ts and src/App.tsx) and proves properties of its
message handling, audio encoding and decoding, and UI guards.

Conventions of the embedding:
- JavaScript numbers used for audio timing and samples are modelled as
  rationals; Int16Array stores are modelled with explicit truncation and
  16-bit wrap-around arithmetic.
- The mutable fields of LiveClient become a LiveState record; callback
  invocations and outward side effects (scheduling an audio source,
  sending a tool response, sending realtime input) become entries of an
  event list that each operation returns next to its output state.
- Nullable resource fields (session, audio contexts, media stream) are
  modelled by Booleans recording whether the resource is present.
-/

namespace LinguaFriend

/-- Characters of the standard base64 alphabet, in order of value. -/
def b64chars : List Char :=
  ['A','B','C','D','E','F','G','H','I','J','K','L','M','N','O','P',
   'Q','R','S','T','U','V','W','X','Y','Z',
   'a','b','c','d','e','f','g','h','i','j','k','l','m','n','o','p',
   'q','r','s','t','u','v','w','x','y','z',
   '0','1','2','3','4','5','6','7','8','9','+','/']

/-- Padding character emitted by btoa. -/
def padChar : Char := '='

/-- Sextet value to base64 character. -/
def b64char (n : Nat) : Char := b64chars.getD n '*'

/-- Base64 character back to its sextet value; none for foreign characters. -/
def b64val (c : Char) : Option Nat := b64chars.findIdx? (fun x => x == c)

/-- Base64 encoding of a byte list, as the character list btoa produces:
three bytes map to four alphabet characters, a final one- or two-byte
group is padded with '=' (LiveClient.encode composed with btoa). -/
def encodeChars : List Nat → List Char
  | [] => []
  | [a] => [b64char (a / 4), b64char (a % 4 * 16), padChar, padChar]
  | [a, b] => [b64char (a / 4), b64char (a % 4 * 16 + b / 16),
               b64char (b % 16 * 4), padChar]
  | a :: b :: c :: rest =>
      b64char (a / 4) :: b64char (a % 4 * 16 + b / 16) ::
      b64char (b % 16 * 4 + c / 64) :: b64char (c % 64) :: encodeChars rest

/-- Base64 decoding of a character list back to bytes, none on malformed
input (LiveClient.decode composed with atob, which throws on bad input). -/
def decodeChars : List Char → Option (List Nat)
  | [] => some []
  | w :: x :: y :: z :: rest =>
      match b64val w, b64val x with
      | some vw, some vx =>
        if y = padChar then
          if z = padChar ∧ rest = [] then some [vw * 4 + vx / 16] else none
        else
          match b64val y with
          | some vy =>
            if z = padChar then
              if rest = [] then some [vw * 4 + vx / 16, vx % 16 * 16 + vy / 4]
              else none
            else
              match b64val z with
              | some vz =>
                  (decodeChars rest).map
                    (fun tl => (vw * 4 + vx / 16) :: (vx % 16 * 16 + vy / 4) ::
                               (vy % 4 * 64 + vz) :: tl)
              | none => none
          | none => none
      | _, _ => none
  | _ => none

/-- LiveClient.encode: bytes to their base64 string (String.fromCharCode
then btoa). -/
def encode (bytes : List Nat) : String := String.mk (encodeChars bytes)

/-- LiveClient.decode: base64 string back to bytes (atob then charCodeAt);
none when atob would throw. -/
def decode (base64 : String) : Option (List Nat) := decodeChars base64.toList

/-- Unsigned 16-bit value reinterpreted as a signed Int16. -/
def toSigned16 (v : Nat) : ℤ := if v < 32768 then (v : ℤ) else (v : ℤ) - 65536

/-- Int16Array view of a byte buffer: consecutive little-endian byte pairs
become signed 16-bit values (a trailing odd byte has no Int16Array view;
decodeAudioData checks evenness separately). -/
def int16sOfBytes : List Nat → List ℤ
  | [] => []
  | [_] => []
  | lo :: hi :: rest => toSigned16 (lo + 256 * hi) :: int16sOfBytes rest

/-- Web Audio buffer: sample rate, frame count, and one sample list per
channel. -/
structure AudioBuffer where
  sampleRate : ℚ
  frameCount : Nat
  channels : List (List ℚ)
deriving DecidableEq

/-- Duration of an AudioBuffer in seconds: frames over sample rate. -/
def AudioBuffer.duration (b : AudioBuffer) : ℚ := (b.frameCount : ℚ) / b.sampleRate

/-- LiveClient.decodeAudioData: reinterpret the bytes as an Int16Array
(none on odd byte length, where the Int16Array constructor throws), take
frameCount = dataInt16.length / numChannels, and fill channel c at frame i
with dataInt16[i * numChannels + c] / 32768. -/
def decodeAudioData (data : List Nat) (sampleRate : ℚ) (numChannels : Nat) :
    Option AudioBuffer :=
  if data.length % 2 = 0 then
    let ints := int16sOfBytes data
    let frameCount := ints.length / numChannels
    some ⟨sampleRate, frameCount,
      (List.range numChannels).map (fun c =>
        (List.range frameCount).map (fun i =>
          ((ints.getD (i * numChannels + c) 0 : ℤ) : ℚ) / 32768))⟩
  else none

/-- Truncation of a rational toward zero, as JavaScript ToInteger does. -/
def ratTrunc (q : ℚ) : ℤ := if 0 ≤ q then ⌊q⌋ else ⌈q⌉

/-- Wrap an integer into the signed 16-bit range, as an Int16Array store
does. -/
def wrap16 (z : ℤ) : ℤ := (z + 32768) % 65536 - 32768

/-- One sample of LiveClient.createBlob: clamp to the unit interval, scale
negative samples by 0x8000 and non-negative ones by 0x7FFF, then store
into an Int16Array slot (truncation toward zero, 16-bit wrap). -/
def quantizeSample (s : ℚ) : ℤ :=
  let c := max (-1) (min 1 s)
  wrap16 (if c < 0 then ratTrunc (c * 32768) else ratTrunc (c * 32767))

/-- Little-endian byte serialization of a list of Int16 values, as
Uint8Array of the Int16Array buffer. -/
def int16LEBytes (vs : List ℤ) : List Nat :=
  (vs.map (fun v => [((v % 65536).toNat) % 256, ((v % 65536).toNat) / 256])).flatten

/-- Wire blob of LiveClient.createBlob: base64 payload and mime type. -/
structure PcmBlob where
  data : String
  mimeType : String
deriving DecidableEq

/-- LiveClient.createBlob: quantize every Float32 sample to Int16, view the
result as little-endian bytes, base64-encode them, and tag the blob with
the 16 kHz PCM mime type. -/
def createBlob (samples : List ℚ) : PcmBlob :=
  ⟨encode (int16LEBytes (samples.map quantizeSample)), "audio/pcm;rate=16000"⟩

/-- Data passed to the onExplanation callback. -/
structure ExplanationData where
  botTranslation : String
  userOriginal : String
  userEnglishTranslation : String
deriving DecidableEq

/-- Arguments of a provideBilingualDetails function call; absent fields are
none. -/
structure ToolArgs where
  botTranslation : Option String
  userOriginal : Option String
  userEnglishTranslation : Option String
deriving DecidableEq

/-- One function call of a toolCall server message. -/
structure FunctionCall where
  callId : String
  name : String
  args : ToolArgs
deriving DecidableEq

/-- Shape of a LiveServerMessage as handleMessage inspects it:
serverContent.modelTurn.parts[0].inlineData.data, the transcription
fragments, the toolCall function list, and the turnComplete and
interrupted flags. -/
structure ServerMessage where
  audioData : Option String
  inputTranscription : Option String
  outputTranscription : Option String
  toolCall : Option (List FunctionCall)
  turnComplete : Bool
  interrupted : Bool
deriving DecidableEq

/-- Outward effects of the client: callback invocations, audio-source
scheduling and stopping, and messages sent on the session. -/
inductive Event where
  | scheduleSource (ctxTime startTime dur : ℚ) (srcId : Nat)
  | stopSource (srcId : Nat)
  | onInputTranscription (s : String)
  | onOutputTranscription (s : String)
  | onExplanation (d : ExplanationData)
  | toolResponse (callId name result : String)
  | onTurnComplete
  | sendRealtimeInput (mimeType payload : String)
  | onConnected
  | onDisconnected
  | onError (msg : String)
  | requestMic
  | createContexts
  | openSession
deriving DecidableEq

/-- Mutable state of a LiveClient. Nullable resources are Booleans
recording presence; nextId numbers freshly created audio sources. -/
structure LiveState where
  isConnected : Bool
  session : Bool
  mediaStream : Bool
  inputCtx : Bool
  outputCtx : Bool
  nextStartTime : ℚ
  sources : List Nat
  nextId : Nat
  currentInputTranscription : String
  currentOutputTranscription : String
deriving DecidableEq

/-- Audio block of handleMessage: when the message carries a non-empty
inline audio payload and the output context and node are present, bump
nextStartTime to at least the context's current time t, then decode; on
success schedule a source at nextStartTime, advance nextStartTime by the
buffer's duration and record the source; on decode failure keep the
bumped time (the decode error is caught and logged). -/
def audioStep (t : ℚ) (st : LiveState) (m : ServerMessage) :
    LiveState × List Event :=
  match m.audioData with
  | none => (st, [])
  | some b64 =>
    if b64.length = 0 then (st, [])
    else if st.outputCtx then
      let st1 := { st with nextStartTime := max st.nextStartTime t }
      match (decode b64).bind (fun bs => decodeAudioData bs 24000 1) with
      | none => (st1, [])
      | some buf =>
          ({ st1 with
              nextStartTime := st1.nextStartTime + buf.duration,
              sources := st1.sources ++ [st1.nextId],
              nextId := st1.nextId + 1 },
           [Event.scheduleSource t st1.nextStartTime buf.duration st1.nextId])
    else (st, [])

/-- Input-transcription block of handleMessage: append the fragment to the
accumulator and report the accumulated text. -/
def inputStep (st : LiveState) (m : ServerMessage) : LiveState × List Event :=
  match m.inputTranscription with
  | none => (st, [])
  | some frag =>
      let acc := st.currentInputTranscription ++ frag
      ({ st with currentInputTranscription := acc },
       [Event.onInputTranscription acc])

/-- Output-transcription block of handleMessage: append the fragment to the
accumulator and report the accumulated text. -/
def outputStep (st : LiveState) (m : ServerMessage) : LiveState × List Event :=
  match m.outputTranscription with
  | none => (st, [])
  | some frag =>
      let acc := st.currentOutputTranscription ++ frag
      ({ st with currentOutputTranscription := acc },
       [Event.onOutputTranscription acc])

/-- Explanation data built from a function call's arguments, each absent
field replaced by the empty string (args.field or-empty). -/
def explanationOf (fc : FunctionCall) : ExplanationData :=
  ⟨fc.args.botTranslation.getD "", fc.args.userOriginal.getD "",
   fc.args.userEnglishTranslation.getD ""⟩

/-- Events of one function call: a provideBilingualDetails call raises
onExplanation and, when the session is present, sends one tool response
with the call's id and name and the body result ok; any other call does
nothing. -/
def toolCallEvents (hasSession : Bool) (fc : FunctionCall) : List Event :=
  if fc.name = "provideBilingualDetails" then
    Event.onExplanation (explanationOf fc) ::
      (if hasSession then [Event.toolResponse fc.callId fc.name "ok"] else [])
  else []

/-- Tool-call block of handleMessage: process every function call of the
message in order. The block does not change the client state. -/
def toolStep (st : LiveState) (m : ServerMessage) : List Event :=
  match m.toolCall with
  | none => []
  | some calls => (calls.map (toolCallEvents st.session)).flatten

/-- Turn-completion block of handleMessage: report the turn completion and
reset both transcription accumulators. -/
def turnStep (st : LiveState) (m : ServerMessage) : LiveState × List Event :=
  if m.turnComplete then
    ({ st with currentInputTranscription := "",
               currentOutputTranscription := "" },
     [Event.onTurnComplete])
  else (st, [])

/-- Interruption block of handleMessage: stop every recorded source, clear
the source set, reset nextStartTime to zero and drop the accumulated
output transcription. -/
def interruptStep (st : LiveState) (m : ServerMessage) :
    LiveState × List Event :=
  if m.interrupted then
    ({ st with sources := [], nextStartTime := 0,
               currentOutputTranscription := "" },
     st.sources.map Event.stopSource)
  else (st, [])

/-- LiveClient.handleMessage at output-context time t: return unchanged
with no effects when not connected, otherwise run the audio,
input-transcription, output-transcription, tool-call, turn-complete and
interrupted blocks in the source's order. -/
def handleMessage (t : ℚ) (st : LiveState) (m : ServerMessage) :
    LiveState × List Event :=
  if st.isConnected then
    let r1 := audioStep t st m
    let r2 := inputStep r1.1 m
    let r3 := outputStep r2.1 m
    let e4 := toolStep r3.1 m
    let r5 := turnStep r3.1 m
    let r6 := interruptStep r5.1 m
    (r6.1, r1.2 ++ (r2.2 ++ (r3.2 ++ (e4 ++ (r5.2 ++ r6.2)))))
  else (st, [])

/-- Handle a sequence of server messages, each paired with the output
context's current time when it arrives, accumulating all effects. -/
def handleTrace : LiveState → List (ℚ × ServerMessage) → LiveState × List Event
  | st, [] => (st, [])
  | st, (t, m) :: rest =>
      let r := handleMessage t st m
      let r2 := handleTrace r.1 rest
      (r2.1, r.2 ++ r2.2)

/-- Projection of an event onto audio-scheduling data: context time, start
time, duration. -/
def schedOfEvent : Event → Option (ℚ × ℚ × ℚ)
  | Event.scheduleSource t s d _ => some (t, s, d)
  | _ => none

/-- Audio-scheduling data of an event list, in order. -/
def schedEvents (l : List Event) : List (ℚ × ℚ × ℚ) := l.filterMap schedOfEvent

/-- Payloads of the onInputTranscription events of a list, in order. -/
def inTransEvents (l : List Event) : List String :=
  l.filterMap fun e =>
    match e with
    | Event.onInputTranscription s => some s
    | _ => none

/-- Payloads of the onOutputTranscription events of a list, in order. -/
def outTransEvents (l : List Event) : List String :=
  l.filterMap fun e =>
    match e with
    | Event.onOutputTranscription s => some s
    | _ => none

/-- Sub-list of the explanation-callback and tool-response events. -/
def toolEvts (l : List Event) : List Event :=
  l.filterMap fun e =>
    match e with
    | Event.onExplanation d => some (Event.onExplanation d)
    | Event.toolResponse a b c => some (Event.toolResponse a b c)
    | _ => none

/-- Well-chained schedule: starting from timeline position n0, every
scheduled chunk starts at the maximum of its arrival context time and the
end of the chunk before it, and the position advances by its duration. -/
def schedOk : ℚ → List (ℚ × ℚ × ℚ) → Prop
  | _, [] => True
  | n0, (t, s, d) :: rest => s = max n0 t ∧ schedOk (s + d) rest

/-- End of the last scheduled chunk, n0 when nothing was scheduled. -/
def schedEnd : ℚ → List (ℚ × ℚ × ℚ) → ℚ
  | n0, [] => n0
  | _, (_, s, d) :: rest => schedEnd (s + d) rest

/-- Cumulative concatenations of a fragment list onto an accumulator: the
n-th entry is the accumulator followed by the first n fragments. -/
def cumConcat (acc : String) : List String → List String
  | [] => []
  | f :: rest => (acc ++ f) :: cumConcat (acc ++ f) rest

/-- A message's inline audio either is absent, empty (falsy), or decodes
to an audio buffer at 24 kHz mono. -/
def audioDecodes (m : ServerMessage) : Bool :=
  match m.audioData with
  | none => true
  | some s =>
      s.length = 0 || ((decode s).bind (fun bs => decodeAudioData bs 24000 1)).isSome

/-- The onaudioprocess handler installed by startAudioStreaming: return
silently unless connected with a live session, otherwise send the
createBlob encoding of the input channel as realtime input. -/
def onAudioProcess (st : LiveState) (inputData : List ℚ) : List Event :=
  if st.isConnected = false ∨ st.session = false then []
  else [Event.sendRealtimeInput (createBlob inputData).mimeType
          (createBlob inputData).data]

/-- LiveClient.disconnect: clear the connected flag, close and drop the
session, stop and drop the media stream and audio contexts, and invoke
onDisconnected. -/
def disconnect (st : LiveState) : LiveState × List Event :=
  ({ st with isConnected := false, session := false, mediaStream := false,
             inputCtx := false, outputCtx := false },
   [Event.onDisconnected])

/-- Outcome of the externally visible part of connect: either every await
succeeds, or an exception e is raised after the environment has applied
some partial resource acquisition g to the state. -/
inductive ConnectExt where
  | ok
  | failWith (g : LiveState → LiveState) (e : String)

/-- LiveClient.connect with the API key environment value and the outcome
of the external steps: a missing or empty key reports API Key missing and
does nothing else; otherwise the try block requests the microphone,
creates the audio contexts, opens the session and reports onConnected; on
an exception the catch block runs disconnect and then reports the error. -/
def connect (apiKey : Option String) (ext : ConnectExt) (st : LiveState) :
    LiveState × List Event :=
  if (apiKey.getD "").length = 0 then
    (st, [Event.onError "API Key missing"])
  else
    match ext with
    | ConnectExt.ok =>
        ({ st with mediaStream := true, inputCtx := true, outputCtx := true,
                   session := true, isConnected := true },
         [Event.requestMic, Event.createContexts, Event.openSession,
          Event.onConnected])
    | ConnectExt.failWith g e =>
        let r := disconnect (g st)
        (r.1, Event.requestMic :: (r.2 ++ [Event.onError e]))

/-- ChatInput.handleSubmit: send the trimmed text only when it is
non-empty and neither loading nor live mode blocks it; the result is the
argument passed to onSend, none when onSend is not called. -/
def handleSubmit (input : String) (isLoading isLiveActive : Bool) :
    Option String :=
  if input.trim.length ≠ 0 ∧ isLoading = false ∧ isLiveActive = false then
    some input.trim
  else none

/-- Disabled attribute of the ChatInput textarea. -/
def textareaDisabled (isLoading isLiveActive : Bool) : Bool :=
  isLoading || isLiveActive

/-- Disabled attribute of the header's language-menu toggle button. -/
def langButtonDisabled (isLive : Bool) : Bool := isLive

/-- Click handler of the language-menu toggle: flip showLangMenu unless
live mode is active. -/
def langMenuToggle (isLive showLangMenu : Bool) : Bool :=
  if isLive then showLangMenu else !showLangMenu

/-- A connected client state with all resources present and everything
else initial. -/
def stLive : LiveState :=
  ⟨true, true, true, true, true, 0, [], 0, "", ""⟩

/-- A disconnected client state. -/
def stDisc : LiveState :=
  ⟨false, false, false, false, false, 0, [], 0, "", ""⟩

/-- A server message with no content at all. -/
def mEmpty : ServerMessage := ⟨none, none, none, none, false, false⟩

/-- A server message carrying four bytes of inline audio. -/
def mAudio : ServerMessage :=
  ⟨some (encode [16, 0, 0, 0]), none, none, none, false, false⟩

/-- A connected state holding one playing source and accumulated input
text. -/
def stC2 : LiveState :=
  ⟨true, true, true, true, true, 0, [0], 1, "x", ""⟩

/-- An interrupted message that also carries an input-transcription
fragment. -/
def mC2 : ServerMessage := ⟨none, some "y", none, none, false, true⟩

/-- A message carrying only an output-transcription fragment. -/
def mOut (s : String) : ServerMessage := ⟨none, none, some s, none, false, false⟩

/-- A message carrying only the interrupted flag. -/
def mIntr : ServerMessage := ⟨none, none, none, none, false, true⟩

/-- Message trace for the output-transcription counterexample: a fragment,
an interruption, another fragment, no turn completion anywhere. -/
def c3msgs : List (ℚ × ServerMessage) :=
  [(0, mOut "a"), (0, mIntr), (0, mOut "b")]

/-- A provideBilingualDetails call with only the required argument. -/
def fcSample : FunctionCall :=
  ⟨"id1", "provideBilingualDetails", ⟨some "hola", none, none⟩⟩

/-- A function call with a foreign name. -/
def fcOther : FunctionCall := ⟨"id2", "otherTool", ⟨none, none, none⟩⟩

/-- A message carrying one matching and one foreign function call. -/
def mTool : ServerMessage :=
  ⟨none, none, none, some [fcSample, fcOther], false, false⟩

/-! Base64 lemmas -/

theorem b64val_b64char : ∀ n, n < 64 → b64val (b64char n) = some n := by decide

theorem b64char_ne_pad : ∀ n, n < 64 → b64char n ≠ padChar := by decide

theorem decodeChars_encodeChars :
    ∀ bs : List Nat, (∀ b ∈ bs, b < 256) →
      decodeChars (encodeChars bs) = some bs := by
  intro bs
  induction bs using encodeChars.induct with
  | case1 =>
      intro _
      simp [encodeChars, decodeChars]
  | case2 a =>
      intro h
      have ha : a < 256 := h a (by simp)
      have h1 : b64val (b64char (a / 4)) = some (a / 4) :=
        b64val_b64char _ (by omega)
      have h2 : b64val (b64char (a % 4 * 16)) = some (a % 4 * 16) :=
        b64val_b64char _ (by omega)
      simp [encodeChars, decodeChars, h1, h2]
      omega
  | case3 a b =>
      intro h
      have ha : a < 256 := h a (by simp)
      have hb : b < 256 := h b (by simp)
      have h1 : b64val (b64char (a / 4)) = some (a / 4) :=
        b64val_b64char _ (by omega)
      have h2 : b64val (b64char (a % 4 * 16 + b / 16)) =
          some (a % 4 * 16 + b / 16) := b64val_b64char _ (by omega)
      have h3 : b64val (b64char (b % 16 * 4)) = some (b % 16 * 4) :=
        b64val_b64char _ (by omega)
      have hy : b64char (b % 16 * 4) ≠ padChar := b64char_ne_pad _ (by omega)
      simp [encodeChars, decodeChars, h1, h2, h3, hy]
      omega
  | case4 a b c rest ih =>
      intro h
      have ha : a < 256 := h a (by simp)
      have hb : b < 256 := h b (by simp)
      have hc : c < 256 := h c (by simp)
      have hrest : ∀ x ∈ rest, x < 256 := fun x hx => h x (by simp [hx])
      have h1 : b64val (b64char (a / 4)) = some (a / 4) :=
        b64val_b64char _ (by omega)
      have h2 : b64val (b64char (a % 4 * 16 + b / 16)) =
          some (a % 4 * 16 + b / 16) := b64val_b64char _ (by omega)
      have h3 : b64val (b64char (b % 16 * 4 + c / 64)) =
          some (b % 16 * 4 + c / 64) := b64val_b64char _ (by omega)
      have h4 : b64val (b64char (c % 64)) = some (c % 64) :=
        b64val_b64char _ (by omega)
      have hy : b64char (b % 16 * 4 + c / 64) ≠ padChar :=
        b64char_ne_pad _ (by omega)
      have hz : b64char (c % 64) ≠ padChar := b64char_ne_pad _ (by omega)
      simp [encodeChars, decodeChars, h1, h2, h3, h4, hy, hz, ih hrest]
      omega

/-- C8: for every byte list, decoding the base64 encoding returns exactly
the original bytes: LiveClient.decode inverts LiveClient.encode. -/
theorem c8_decode_encode (bs : List Nat) (h : ∀ b ∈ bs, b < 256) :
    decode (encode bs) = some bs := by
  have : (encode bs).toList = encodeChars bs := rfl
  rw [decode, this, decodeChars_encodeChars bs h]

/-- Witness for C8 at a concrete byte list. -/
theorem c8_w : decode (encode [1, 255, 3]) = some [1, 255, 3] :=
  c8_decode_encode [1, 255, 3] (by decide)

/-! PCM encoding and decoding lemmas -/

theorem trunc_clamped (c : ℚ) (h1 : -1 ≤ c) (h2 : c ≤ 1) :
    -32768 ≤ (if c < 0 then ratTrunc (c * 32768) else ratTrunc (c * 32767)) ∧
      (if c < 0 then ratTrunc (c * 32768) else ratTrunc (c * 32767)) ≤ 32767 := by
  by_cases hc : c < 0
  · rw [if_pos hc, ratTrunc,
      if_neg (by nlinarith : ¬(0 : ℚ) ≤ c * 32768)]
    constructor
    · have hcast : ((-32768 : ℤ) : ℚ) ≤ c * 32768 := by push_cast; nlinarith
      calc (-32768 : ℤ) = ⌈((-32768 : ℤ) : ℚ)⌉ := (Int.ceil_intCast _).symm
        _ ≤ ⌈c * 32768⌉ := Int.ceil_mono hcast
    · have hx : c * 32768 ≤ ((0 : ℤ) : ℚ) := by push_cast; nlinarith
      calc ⌈c * 32768⌉ ≤ (0 : ℤ) := Int.ceil_le.mpr hx
        _ ≤ 32767 := by norm_num
  · have hc0 : (0 : ℚ) ≤ c := le_of_not_lt hc
    rw [if_neg hc, ratTrunc, if_pos (by nlinarith : (0 : ℚ) ≤ c * 32767)]
    constructor
    · have hcast : ((-32768 : ℤ) : ℚ) ≤ c * 32767 := by push_cast; nlinarith
      calc (-32768 : ℤ) = ⌊((-32768 : ℤ) : ℚ)⌋ := (Int.floor_intCast _).symm
        _ ≤ ⌊c * 32767⌋ := Int.floor_mono hcast
    · have hcast : c * 32767 ≤ ((32767 : ℤ) : ℚ) := by push_cast; nlinarith
      calc ⌊c * 32767⌋ ≤ ⌊((32767 : ℤ) : ℚ)⌋ := Int.floor_mono hcast
        _ = 32767 := Int.floor_intCast _

/-- C5: createBlob tags its blob with the 16 kHz PCM mime type; its
payload is the base64 encoding of the little-endian Int16 serialization
of the quantized samples; and quantization is exactly clamping to the
unit interval, scaling negative samples by 0x8000 and non-negative ones
by 0x7FFF, and truncating toward zero, so every encoded sample value lies
in the signed 16-bit range. -/
theorem c5_createBlob_encoding :
    ∀ samples : List ℚ,
      (createBlob samples).mimeType = "audio/pcm;rate=16000" ∧
      (createBlob samples).data =
        encode (int16LEBytes (samples.map quantizeSample)) ∧
      ∀ s : ℚ,
        quantizeSample s =
          (if max (-1) (min 1 s) < 0 then ratTrunc (max (-1) (min 1 s) * 32768)
           else ratTrunc (max (-1) (min 1 s) * 32767)) ∧
        -32768 ≤ quantizeSample s ∧ quantizeSample s ≤ 32767 := by
  intro samples
  refine ⟨rfl, rfl, ?_⟩
  intro s
  have h1 : (-1 : ℚ) ≤ max (-1) (min 1 s) := le_max_left _ _
  have h2 : max (-1) (min 1 s) ≤ 1 :=
    max_le (by norm_num) (min_le_left _ _)
  have hb := trunc_clamped (max (-1) (min 1 s)) h1 h2
  have hb1 := hb.1
  have hb2 := hb.2
  have hq : quantizeSample s =
      wrap16 (if max (-1) (min 1 s) < 0 then
                ratTrunc (max (-1) (min 1 s) * 32768)
              else ratTrunc (max (-1) (min 1 s) * 32767)) := rfl
  have hw : wrap16 (if max (-1) (min 1 s) < 0 then
                      ratTrunc (max (-1) (min 1 s) * 32768)
                    else ratTrunc (max (-1) (min 1 s) * 32767)) =
      (if max (-1) (min 1 s) < 0 then ratTrunc (max (-1) (min 1 s) * 32768)
       else ratTrunc (max (-1) (min 1 s) * 32767)) := by
    unfold wrap16
    omega
  rw [hq, hw]
  exact ⟨rfl, hb1, hb2⟩

theorem int16sOfBytes_length :
    ∀ data : List Nat, (int16sOfBytes data).length = data.length / 2 := by
  intro data
  induction data using int16sOfBytes.induct with
  | case1 => simp [int16sOfBytes]
  | case2 a => simp [int16sOfBytes]
  | case3 lo hi rest ih =>
      simp only [int16sOfBytes, List.length_cons, ih]
      omega

theorem int16sOfBytes_bounds :
    ∀ data : List Nat, (∀ b ∈ data, b < 256) →
      ∀ v ∈ int16sOfBytes data, -32768 ≤ v ∧ v < 32768 := by
  intro data
  induction data using int16sOfBytes.induct with
  | case1 => intro _ v hv; simp [int16sOfBytes] at hv
  | case2 a => intro _ v hv; simp [int16sOfBytes] at hv
  | case3 lo hi rest ih =>
      intro hb v hv
      simp only [int16sOfBytes, List.mem_cons] at hv
      rcases hv with hv | hv
      · have hlo : lo < 256 := hb lo (by simp)
        have hhi : hi < 256 := hb hi (by simp)
        subst hv
        unfold toSigned16
        split <;> omega
      · exact ih (fun x hx => hb x (by simp [hx])) v hv

theorem range_map_getD (f : ℤ → ℚ) :
    ∀ l : List ℤ,
      (List.range l.length).map (fun i => f (l.getD i 0)) = l.map f := by
  intro l
  induction l with
  | nil => simp
  | cons a tl ih =>
      have hcomp : ((fun i => f ((a :: tl).getD i 0)) ∘ Nat.succ) =
          fun i => f (tl.getD i 0) := by
        funext i
        simp
      rw [List.length_cons, List.range_succ_eq_map, List.map_cons,
        List.map_map, hcomp, ih]
      simp

/-- C6: on an even-length byte array with mono decoding, decodeAudioData
yields a buffer of exactly half as many frames whose single channel holds
each little-endian signed 16-bit value divided by 32768, and every
decoded sample lies in the interval from -1 inclusive to 1 exclusive. -/
theorem c6_decodeAudioData_samples :
    ∀ (data : List Nat) (n : Nat), data.length = 2 * n →
      (∀ b ∈ data, b < 256) →
      decodeAudioData data 24000 1 =
        some ⟨24000, n,
          [(int16sOfBytes data).map (fun v => ((v : ℤ) : ℚ) / 32768)]⟩ ∧
      ∀ q ∈ (int16sOfBytes data).map (fun v => ((v : ℤ) : ℚ) / 32768),
        -1 ≤ q ∧ q < 1 := by
  intro data n hlen hbytes
  constructor
  · unfold decodeAudioData
    rw [if_pos (by omega)]
    have hfc : (int16sOfBytes data).length / 1 = n := by
      rw [int16sOfBytes_length]
      omega
    have hn : n = (int16sOfBytes data).length := by
      rw [int16sOfBytes_length]
      omega
    simp only [hfc, List.range_succ, List.range_zero, List.nil_append,
      List.map_cons, List.map_nil, Nat.mul_one, Nat.add_zero]
    rw [hn, range_map_getD (fun v => ((v : ℤ) : ℚ) / 32768) (int16sOfBytes data)]
  · intro q hq
    rcases List.mem_map.mp hq with ⟨v, hv, rfl⟩
    have hvb := int16sOfBytes_bounds data hbytes v hv
    constructor
    · rw [le_div_iff₀ (by norm_num : (0 : ℚ) < 32768)]
      have hcast : ((-32768 : ℤ) : ℚ) ≤ (v : ℚ) := by exact_mod_cast hvb.1
      push_cast at hcast ⊢
      linarith
    · rw [div_lt_one (by norm_num : (0 : ℚ) < 32768)]
      exact_mod_cast hvb.2

/-- Witness for C6 at the two-byte array 0, 128, which decodes to the
single sample -1. -/
theorem c6_w :
    decodeAudioData [0, 128] 24000 1 =
      some ⟨24000, 1,
        [(int16sOfBytes [0, 128]).map (fun v => ((v : ℤ) : ℚ) / 32768)]⟩ ∧
    ∀ q ∈ (int16sOfBytes [0, 128]).map (fun v => ((v : ℤ) : ℚ) / 32768),
      -1 ≤ q ∧ q < 1 :=
  c6_decodeAudioData_samples [0, 128] 1 (by decide) (by decide)

/-! Toolkit: equations and field preservation for the handleMessage blocks -/

theorem filterMap_none {α : Type} (f : Event → Option α) :
    ∀ l : List Event, (∀ e ∈ l, f e = none) → l.filterMap f = [] := by
  intro l
  induction l with
  | nil => intro _; rfl
  | cons a tl ih =>
      intro h
      rw [List.filterMap_cons, h a (by simp)]
      exact ih (fun e he => h e (by simp [he]))

theorem handleMessage_eq (t : ℚ) (st : LiveState) (m : ServerMessage)
    (h : st.isConnected = true) :
    handleMessage t st m =
      ((interruptStep (turnStep (outputStep (inputStep (audioStep t st m).1 m).1
          m).1 m).1 m).1,
       (audioStep t st m).2 ++
         ((inputStep (audioStep t st m).1 m).2 ++
           ((outputStep (inputStep (audioStep t st m).1 m).1 m).2 ++
             (toolStep (outputStep (inputStep (audioStep t st m).1 m).1 m).1 m ++
               ((turnStep (outputStep (inputStep (audioStep t st m).1 m).1 m).1
                   m).2 ++
                 (interruptStep (turnStep (outputStep (inputStep (audioStep t st
                     m).1 m).1 m).1 m).1 m).2))))) := by
  unfold handleMessage
  rw [if_pos h]

theorem handleMessage_not_connected (t : ℚ) (st : LiveState) (m : ServerMessage)
    (h : st.isConnected = false) : handleMessage t st m = (st, []) := by
  unfold handleMessage
  rw [h]
  simp

theorem handleTrace_cons (st : LiveState) (t : ℚ) (m : ServerMessage)
    (rest : List (ℚ × ServerMessage)) :
    handleTrace st ((t, m) :: rest) =
      ((handleTrace (handleMessage t st m).1 rest).1,
       (handleMessage t st m).2 ++ (handleTrace (handleMessage t st m).1 rest).2) :=
  rfl

theorem audioStep_fields (t : ℚ) (st : LiveState) (m : ServerMessage) :
    (audioStep t st m).1.isConnected = st.isConnected ∧
    (audioStep t st m).1.session = st.session ∧
    (audioStep t st m).1.outputCtx = st.outputCtx ∧
    (audioStep t st m).1.currentInputTranscription = st.currentInputTranscription ∧
    (audioStep t st m).1.currentOutputTranscription = st.currentOutputTranscription := by
  unfold audioStep
  rcases had : m.audioData with _ | s
  · simp [had]
  · by_cases hl : s.length = 0
    · simp [had, hl]
    · by_cases hc : st.outputCtx = true
      · rcases hres : (decode s).bind (fun bs => decodeAudioData bs 24000 1) with
          _ | buf <;> simp [had, hl, hc, hres]
      · simp [had, hl, hc]

theorem audioStep_sources (t : ℚ) (st : LiveState) (m : ServerMessage) :
    ∀ i ∈ st.sources, i ∈ (audioStep t st m).1.sources := by
  unfold audioStep
  rcases had : m.audioData with _ | s
  · simp [had]
  · by_cases hl : s.length = 0
    · simp [had, hl]
    · by_cases hc : st.outputCtx = true
      · rcases hres : (decode s).bind (fun bs => decodeAudioData bs 24000 1) with
          _ | buf <;> simp [had, hl, hc, hres]
        intro i hi
        exact Or.inl hi
      · simp [had, hl, hc]

theorem audioStep_events (t : ℚ) (st : LiveState) (m : ServerMessage) :
    (audioStep t st m).2 = [] ∨
      ∃ a s2 d i, (audioStep t st m).2 = [Event.scheduleSource a s2 d i] := by
  unfold audioStep
  rcases had : m.audioData with _ | s
  · left; simp [had]
  · by_cases hl : s.length = 0
    · left; simp [had, hl]
    · by_cases hc : st.outputCtx = true
      · rcases hres : (decode s).bind (fun bs => decodeAudioData bs 24000 1) with
          _ | buf
        · left; simp [had, hl, hc, hres]
        · right
          refine ⟨t, max st.nextStartTime t, buf.duration, st.nextId, ?_⟩
          simp [had, hl, hc, hres]
      · left; simp [had, hl, hc]

theorem inputStep_fields (st : LiveState) (m : ServerMessage) :
    (inputStep st m).1.isConnected = st.isConnected ∧
    (inputStep st m).1.session = st.session ∧
    (inputStep st m).1.outputCtx = st.outputCtx ∧
    (inputStep st m).1.nextStartTime = st.nextStartTime ∧
    (inputStep st m).1.sources = st.sources ∧
    (inputStep st m).1.currentOutputTranscription = st.currentOutputTranscription := by
  unfold inputStep
  rcases h : m.inputTranscription with _ | frag <;> simp [h]

theorem inputStep_events (st : LiveState) (m : ServerMessage) :
    (inputStep st m).2 = [] ∨
      ∃ s, (inputStep st m).2 = [Event.onInputTranscription s] := by
  unfold inputStep
  rcases h : m.inputTranscription with _ | frag
  · left; simp [h]
  · right
    exact ⟨st.currentInputTranscription ++ frag, by simp [h]⟩

theorem outputStep_fields (st : LiveState) (m : ServerMessage) :
    (outputStep st m).1.isConnected = st.isConnected ∧
    (outputStep st m).1.session = st.session ∧
    (outputStep st m).1.outputCtx = st.outputCtx ∧
    (outputStep st m).1.nextStartTime = st.nextStartTime ∧
    (outputStep st m).1.sources = st.sources ∧
    (outputStep st m).1.currentInputTranscription = st.currentInputTranscription := by
  unfold outputStep
  rcases h : m.outputTranscription with _ | frag <;> simp [h]

theorem outputStep_events (st : LiveState) (m : ServerMessage) :
    (outputStep st m).2 = [] ∨
      ∃ s, (outputStep st m).2 = [Event.onOutputTranscription s] := by
  unfold outputStep
  rcases h : m.outputTranscription with _ | frag
  · left; simp [h]
  · right
    exact ⟨st.currentOutputTranscription ++ frag, by simp [h]⟩

theorem toolStep_shape (st : LiveState) (m : ServerMessage) :
    ∀ e ∈ toolStep st m,
      (∃ d, e = Event.onExplanation d) ∨ ∃ a b c, e = Event.toolResponse a b c := by
  unfold toolStep
  rcases h : m.toolCall with _ | calls
  · simp [h]
  · intro e he
    simp only [h, List.mem_flatten, List.mem_map] at he
    rcases he with ⟨l, ⟨fc, _, rfl⟩, hel⟩
    unfold toolCallEvents at hel
    by_cases hname : fc.name = "provideBilingualDetails"
    · rw [if_pos hname] at hel
      rcases List.mem_cons.mp hel with rfl | hel2
      · exact Or.inl ⟨explanationOf fc, rfl⟩
      · by_cases hs : st.session = true
        · rw [if_pos hs] at hel2
          rcases List.mem_singleton.mp hel2 with rfl
          exact Or.inr ⟨fc.callId, fc.name, "ok", rfl⟩
        · rw [if_neg hs] at hel2
          exact absurd hel2 (List.not_mem_nil e)
    · rw [if_neg hname] at hel
      exact absurd hel (List.not_mem_nil e)

theorem turnStep_fields (st : LiveState) (m : ServerMessage) :
    (turnStep st m).1.isConnected = st.isConnected ∧
    (turnStep st m).1.session = st.session ∧
    (turnStep st m).1.outputCtx = st.outputCtx ∧
    (turnStep st m).1.nextStartTime = st.nextStartTime ∧
    (turnStep st m).1.sources = st.sources := by
  unfold turnStep
  by_cases h : m.turnComplete = true <;> simp [h]

theorem turnStep_events (st : LiveState) (m : ServerMessage) :
    (turnStep st m).2 = [] ∨ (turnStep st m).2 = [Event.onTurnComplete] := by
  unfold turnStep
  by_cases h : m.turnComplete = true
  · right; simp [h]
  · left; simp [h]

theorem turnStep_not (st : LiveState) (m : ServerMessage)
    (h : m.turnComplete = false) : turnStep st m = (st, []) := by
  unfold turnStep
  rw [h]
  simp

theorem interruptStep_fields (st : LiveState) (m : ServerMessage) :
    (interruptStep st m).1.isConnected = st.isConnected ∧
    (interruptStep st m).1.session = st.session ∧
    (interruptStep st m).1.outputCtx = st.outputCtx ∧
    (interruptStep st m).1.currentInputTranscription = st.currentInputTranscription := by
  unfold interruptStep
  by_cases h : m.interrupted = true <;> simp [h]

theorem interruptStep_not (st : LiveState) (m : ServerMessage)
    (h : m.interrupted = false) : interruptStep st m = (st, []) := by
  unfold interruptStep
  rw [h]
  simp

theorem interruptStep_yes (st : LiveState) (m : ServerMessage)
    (h : m.interrupted = true) :
    interruptStep st m =
      ({ st with sources := [], nextStartTime := 0,
                 currentOutputTranscription := "" },
       st.sources.map Event.stopSource) := by
  unfold interruptStep
  rw [h]
  simp

theorem handleMessage_pres (t : ℚ) (st : LiveState) (m : ServerMessage)
    (h : st.isConnected = true) :
    (handleMessage t st m).1.isConnected = st.isConnected ∧
    (handleMessage t st m).1.session = st.session ∧
    (handleMessage t st m).1.outputCtx = st.outputCtx := by
  rw [handleMessage_eq t st m h]
  have h1 := audioStep_fields t st m
  have h2 := inputStep_fields (audioStep t st m).1 m
  have h3 := outputStep_fields (inputStep (audioStep t st m).1 m).1 m
  have h4 := turnStep_fields (outputStep (inputStep (audioStep t st m).1 m).1 m).1 m
  have h5 := interruptStep_fields
    (turnStep (outputStep (inputStep (audioStep t st m).1 m).1 m).1 m).1 m
  exact ⟨by rw [h5.1, h4.1, h3.1, h2.1, h1.1],
         by rw [h5.2.1, h4.2.1, h3.2.1, h2.2.1, h1.2.1],
         by rw [h5.2.2.1, h4.2.2.1, h3.2.2.1, h2.2.2.1, h1.2.2.1]⟩

/-! Scheduling lemmas for C1 -/

theorem schedEvents_append (l1 l2 : List Event) :
    schedEvents (l1 ++ l2) = schedEvents l1 ++ schedEvents l2 := by
  unfold schedEvents
  exact List.filterMap_append l1 l2 schedOfEvent

theorem schedEvents_inputStep (st : LiveState) (m : ServerMessage) :
    schedEvents (inputStep st m).2 = [] := by
  rcases inputStep_events st m with h | ⟨s, h⟩ <;>
    simp [h, schedEvents, schedOfEvent]

theorem schedEvents_outputStep (st : LiveState) (m : ServerMessage) :
    schedEvents (outputStep st m).2 = [] := by
  rcases outputStep_events st m with h | ⟨s, h⟩ <;>
    simp [h, schedEvents, schedOfEvent]

theorem schedEvents_toolStep (st : LiveState) (m : ServerMessage) :
    schedEvents (toolStep st m) = [] := by
  apply filterMap_none
  intro e he
  rcases toolStep_shape st m e he with ⟨d, rfl⟩ | ⟨a, b, c, rfl⟩ <;> rfl

theorem schedEvents_turnStep (st : LiveState) (m : ServerMessage) :
    schedEvents (turnStep st m).2 = [] := by
  rcases turnStep_events st m with h | h <;>
    simp [h, schedEvents, schedOfEvent]

theorem audioStep_sched (t : ℚ) (st : LiveState) (m : ServerMessage)
    (hctx : st.outputCtx = true) (hdec : audioDecodes m = true) :
    (schedEvents (audioStep t st m).2 = [] ∧
     (audioStep t st m).1.nextStartTime = st.nextStartTime) ∨
    (∃ d, schedEvents (audioStep t st m).2 = [(t, max st.nextStartTime t, d)] ∧
          (audioStep t st m).1.nextStartTime = max st.nextStartTime t + d) := by
  unfold audioStep
  rcases had : m.audioData with _ | s
  · left
    simp [had, schedEvents]
  · by_cases hl : s.length = 0
    · left
      simp [had, hl, schedEvents]
    · unfold audioDecodes at hdec
      rw [had] at hdec
      simp [hl] at hdec
      rcases Option.isSome_iff_exists.mp hdec with ⟨buf, hbuf⟩
      right
      refine ⟨buf.duration, ?_, ?_⟩ <;>
        simp [had, hl, hctx, hbuf, schedEvents, schedOfEvent]

theorem handleMessage_sched (t : ℚ) (st : LiveState) (m : ServerMessage)
    (hconn : st.isConnected = true) (hctx : st.outputCtx = true)
    (hint : m.interrupted = false) (hdec : audioDecodes m = true) :
    (schedEvents (handleMessage t st m).2 = [] ∧
     (handleMessage t st m).1.nextStartTime = st.nextStartTime) ∨
    (∃ d, schedEvents (handleMessage t st m).2 = [(t, max st.nextStartTime t, d)] ∧
          (handleMessage t st m).1.nextStartTime = max st.nextStartTime t + d) := by
  rw [handleMessage_eq t st m hconn]
  have hintr := interruptStep_not
    (turnStep (outputStep (inputStep (audioStep t st m).1 m).1 m).1 m).1 m hint
  have h2 := inputStep_fields (audioStep t st m).1 m
  have h3 := outputStep_fields (inputStep (audioStep t st m).1 m).1 m
  have h4 := turnStep_fields (outputStep (inputStep (audioStep t st m).1 m).1 m).1 m
  have hnst : (interruptStep (turnStep (outputStep (inputStep (audioStep t st
      m).1 m).1 m).1 m).1 m).1.nextStartTime = (audioStep t st m).1.nextStartTime := by
    rw [hintr]
    simp only []
    rw [h4.2.2.2.1, h3.2.2.2.1, h2.2.2.2.1]
  have hev : schedEvents ((audioStep t st m).2 ++
      ((inputStep (audioStep t st m).1 m).2 ++
        ((outputStep (inputStep (audioStep t st m).1 m).1 m).2 ++
          (toolStep (outputStep (inputStep (audioStep t st m).1 m).1 m).1 m ++
            ((turnStep (outputStep (inputStep (audioStep t st m).1 m).1 m).1 m).2 ++
              (interruptStep (turnStep (outputStep (inputStep (audioStep t st
                  m).1 m).1 m).1 m).1 m).2))))) =
      schedEvents (audioStep t st m).2 := by
    rw [hintr]
    simp only [schedEvents_append, schedEvents_inputStep, schedEvents_outputStep,
      schedEvents_toolStep, schedEvents_turnStep]
    simp [schedEvents]
  rcases audioStep_sched t st m hctx hdec with ⟨he, hn⟩ | ⟨d, he, hn⟩
  · left
    exact ⟨by rw [hev, he], by rw [hnst, hn]⟩
  · right
    exact ⟨d, by rw [hev, he], by rw [hnst, hn]⟩

/-- C1: over any sequence of server messages handled while connected with
the output context present, none interrupted and every carried audio
payload decodable, the schedule is well-chained: every chunk starts at
the maximum of its arrival context time and the end of its predecessor,
nextStartTime advances by exactly each chunk's duration, and after the
trace nextStartTime equals the end of the last scheduled chunk. -/
theorem c1_sched_timeline :
    ∀ (msgs : List (ℚ × ServerMessage)) (st : LiveState),
      st.isConnected = true → st.outputCtx = true →
      (∀ p ∈ msgs, p.2.interrupted = false ∧ audioDecodes p.2 = true) →
      schedOk st.nextStartTime (schedEvents (handleTrace st msgs).2) ∧
      (handleTrace st msgs).1.nextStartTime =
        schedEnd st.nextStartTime (schedEvents (handleTrace st msgs).2) := by
  intro msgs
  induction msgs with
  | nil =>
      intro st _ _ _
      simp [handleTrace, schedEvents, schedOk, schedEnd]
  | cons p rest ih =>
      rcases p with ⟨t, m⟩
      intro st hconn hctx hall
      have hm := hall (t, m) (by simp)
      have hrest : ∀ q ∈ rest, q.2.interrupted = false ∧ audioDecodes q.2 = true :=
        fun q hq => hall q (by simp [hq])
      have hpres := handleMessage_pres t st m hconn
      have hih := ih (handleMessage t st m).1 (by rw [hpres.1, hconn])
        (by rw [hpres.2.2, hctx]) hrest
      rw [handleTrace_cons, schedEvents_append]
      rcases handleMessage_sched t st m hconn hctx hm.1 hm.2 with
        ⟨he, hn⟩ | ⟨d, he, hn⟩
      · rw [he, List.nil_append]
        rw [hn] at hih
        exact hih
      · rw [he, List.singleton_append]
        rw [hn] at hih
        constructor
        · exact ⟨rfl, hih.1⟩
        · exact hih.2

/-- Witness for C1 on a one-message trace carrying decodable audio. -/
theorem c1_w :
    schedOk stLive.nextStartTime
      (schedEvents (handleTrace stLive [(0, mAudio)]).2) ∧
    (handleTrace stLive [(0, mAudio)]).1.nextStartTime =
      schedEnd stLive.nextStartTime
        (schedEvents (handleTrace stLive [(0, mAudio)]).2) :=
  c1_sched_timeline [(0, mAudio)] stLive rfl rfl (by decide)

/-! Transcription lemmas for C3 -/

theorem filterMap_id_of (f : Event → Option Event) :
    ∀ l : List Event, (∀ e ∈ l, f e = some e) → l.filterMap f = l := by
  intro l
  induction l with
  | nil => intro _; rfl
  | cons a tl ih =>
      intro h
      rw [List.filterMap_cons, h a (by simp)]
      rw [ih (fun e he => h e (by simp [he]))]

theorem inTransEvents_append (l1 l2 : List Event) :
    inTransEvents (l1 ++ l2) = inTransEvents l1 ++ inTransEvents l2 :=
  List.filterMap_append l1 l2 _

theorem outTransEvents_append (l1 l2 : List Event) :
    outTransEvents (l1 ++ l2) = outTransEvents l1 ++ outTransEvents l2 :=
  List.filterMap_append l1 l2 _

theorem toolEvts_append (l1 l2 : List Event) :
    toolEvts (l1 ++ l2) = toolEvts l1 ++ toolEvts l2 :=
  List.filterMap_append l1 l2 _

theorem interruptStep_events (st : LiveState) (m : ServerMessage) :
    ∃ l : List Nat, (interruptStep st m).2 = l.map Event.stopSource := by
  by_cases h : m.interrupted = true
  · refine ⟨st.sources, ?_⟩
    rw [interruptStep_yes st m h]
  · refine ⟨[], ?_⟩
    rw [interruptStep_not st m (by simpa using h)]
    rfl

theorem inTransEvents_stops (l : List Nat) :
    inTransEvents (l.map Event.stopSource) = [] := by
  apply filterMap_none
  intro e he
  rcases List.mem_map.mp he with ⟨i, _, rfl⟩
  rfl

theorem outTransEvents_stops (l : List Nat) :
    outTransEvents (l.map Event.stopSource) = [] := by
  apply filterMap_none
  intro e he
  rcases List.mem_map.mp he with ⟨i, _, rfl⟩
  rfl

theorem toolEvts_stops (l : List Nat) :
    toolEvts (l.map Event.stopSource) = [] := by
  apply filterMap_none
  intro e he
  rcases List.mem_map.mp he with ⟨i, _, rfl⟩
  rfl

theorem inTransEvents_audioStep (t : ℚ) (st : LiveState) (m : ServerMessage) :
    inTransEvents (audioStep t st m).2 = [] := by
  rcases audioStep_events t st m with h | ⟨a, s2, d, i, h⟩ <;>
    simp [h, inTransEvents]

theorem inTransEvents_outputStep (st : LiveState) (m : ServerMessage) :
    inTransEvents (outputStep st m).2 = [] := by
  rcases outputStep_events st m with h | ⟨s, h⟩ <;> simp [h, inTransEvents]

theorem inTransEvents_toolStep (st : LiveState) (m : ServerMessage) :
    inTransEvents (toolStep st m) = [] := by
  apply filterMap_none
  intro e he
  rcases toolStep_shape st m e he with ⟨d, rfl⟩ | ⟨a, b, c, rfl⟩ <;> rfl

theorem inTransEvents_turnStep (st : LiveState) (m : ServerMessage) :
    inTransEvents (turnStep st m).2 = [] := by
  rcases turnStep_events st m with h | h <;> simp [h, inTransEvents]

theorem inTransEvents_interruptStep (st : LiveState) (m : ServerMessage) :
    inTransEvents (interruptStep st m).2 = [] := by
  rcases interruptStep_events st m with ⟨l, h⟩
  rw [h, inTransEvents_stops]

theorem outTransEvents_audioStep (t : ℚ) (st : LiveState) (m : ServerMessage) :
    outTransEvents (audioStep t st m).2 = [] := by
  rcases audioStep_events t st m with h | ⟨a, s2, d, i, h⟩ <;>
    simp [h, outTransEvents]

theorem outTransEvents_inputStep (st : LiveState) (m : ServerMessage) :
    outTransEvents (inputStep st m).2 = [] := by
  rcases inputStep_events st m with h | ⟨s, h⟩ <;> simp [h, outTransEvents]

theorem outTransEvents_toolStep (st : LiveState) (m : ServerMessage) :
    outTransEvents (toolStep st m) = [] := by
  apply filterMap_none
  intro e he
  rcases toolStep_shape st m e he with ⟨d, rfl⟩ | ⟨a, b, c, rfl⟩ <;> rfl

theorem outTransEvents_turnStep (st : LiveState) (m : ServerMessage) :
    outTransEvents (turnStep st m).2 = [] := by
  rcases turnStep_events st m with h | h <;> simp [h, outTransEvents]

theorem outTransEvents_interruptStep (st : LiveState) (m : ServerMessage) :
    outTransEvents (interruptStep st m).2 = [] := by
  rcases interruptStep_events st m with ⟨l, h⟩
  rw [h, outTransEvents_stops]

theorem turnStep_yes (st : LiveState) (m : ServerMessage)
    (h : m.turnComplete = true) :
    turnStep st m =
      ({ st with currentInputTranscription := "",
                 currentOutputTranscription := "" },
       [Event.onTurnComplete]) := by
  unfold turnStep
  rw [h]
  simp

theorem handleMessage_inTrans (t : ℚ) (st : LiveState) (m : ServerMessage)
    (hconn : st.isConnected = true) (htc : m.turnComplete = false) :
    (m.inputTranscription = none →
       (handleMessage t st m).1.currentInputTranscription =
         st.currentInputTranscription ∧
       inTransEvents (handleMessage t st m).2 = []) ∧
    (∀ f, m.inputTranscription = some f →
       (handleMessage t st m).1.currentInputTranscription =
         st.currentInputTranscription ++ f ∧
       inTransEvents (handleMessage t st m).2 =
         [st.currentInputTranscription ++ f]) := by
  rw [handleMessage_eq t st m hconn]
  have ha := audioStep_fields t st m
  have hturn := turnStep_not (outputStep (inputStep (audioStep t st m).1 m).1
    m).1 m htc
  have hoI := outputStep_fields (inputStep (audioStep t st m).1 m).1 m
  have hiIr := interruptStep_fields (turnStep (outputStep (inputStep (audioStep
    t st m).1 m).1 m).1 m).1 m
  constructor
  · intro hin
    have hinev : inputStep (audioStep t st m).1 m = ((audioStep t st m).1, []) := by
      unfold inputStep
      rw [hin]
    constructor
    · rw [hiIr.2.2.2, hturn]
      rw [hoI.2.2.2.2.2, hinev]
      exact ha.2.2.2.1
    · simp only [inTransEvents_append, inTransEvents_audioStep,
        inTransEvents_outputStep, inTransEvents_toolStep, inTransEvents_turnStep,
        inTransEvents_interruptStep, hinev, List.append_nil, List.nil_append]
  · intro f hin
    have hinev : inputStep (audioStep t st m).1 m =
        ({ (audioStep t st m).1 with currentInputTranscription :=
            (audioStep t st m).1.currentInputTranscription ++ f },
         [Event.onInputTranscription
            ((audioStep t st m).1.currentInputTranscription ++ f)]) := by
      unfold inputStep
      rw [hin]
    constructor
    · rw [hiIr.2.2.2, hturn]
      rw [hoI.2.2.2.2.2, hinev]
      simp only []
      rw [ha.2.2.2.1]
    · simp only [inTransEvents_append, inTransEvents_audioStep,
        inTransEvents_outputStep, inTransEvents_toolStep, inTransEvents_turnStep,
        inTransEvents_interruptStep, hinev, List.append_nil, List.nil_append]
      simp [inTransEvents, ha.2.2.2.1]

theorem handleMessage_outTrans (t : ℚ) (st : LiveState) (m : ServerMessage)
    (hconn : st.isConnected = true) (htc : m.turnComplete = false)
    (hint : m.interrupted = false) :
    (m.outputTranscription = none →
       (handleMessage t st m).1.currentOutputTranscription =
         st.currentOutputTranscription ∧
       outTransEvents (handleMessage t st m).2 = []) ∧
    (∀ f, m.outputTranscription = some f →
       (handleMessage t st m).1.currentOutputTranscription =
         st.currentOutputTranscription ++ f ∧
       outTransEvents (handleMessage t st m).2 =
         [st.currentOutputTranscription ++ f]) := by
  rw [handleMessage_eq t st m hconn]
  have ha := audioStep_fields t st m
  have hi := inputStep_fields (audioStep t st m).1 m
  have hturn := turnStep_not (outputStep (inputStep (audioStep t st m).1 m).1
    m).1 m htc
  have hintr := interruptStep_not (turnStep (outputStep (inputStep (audioStep t
    st m).1 m).1 m).1 m).1 m hint
  have hcur : (inputStep (audioStep t st m).1 m).1.currentOutputTranscription =
      st.currentOutputTranscription := by
    rw [hi.2.2.2.2.2, ha.2.2.2.2]
  constructor
  · intro hout
    have houtev : outputStep (inputStep (audioStep t st m).1 m).1 m =
        ((inputStep (audioStep t st m).1 m).1, []) := by
      unfold outputStep
      rw [hout]
    constructor
    · rw [hintr, hturn, houtev]
      exact hcur
    · simp only [outTransEvents_append, outTransEvents_audioStep,
        outTransEvents_inputStep, outTransEvents_toolStep,
        outTransEvents_turnStep, outTransEvents_interruptStep, houtev,
        List.append_nil, List.nil_append]
  · intro f hout
    have houtev : outputStep (inputStep (audioStep t st m).1 m).1 m =
        ({ (inputStep (audioStep t st m).1 m).1 with
            currentOutputTranscription :=
              (inputStep (audioStep t st m).1 m).1.currentOutputTranscription
                ++ f },
         [Event.onOutputTranscription
            ((inputStep (audioStep t st m).1 m).1.currentOutputTranscription
              ++ f)]) := by
      unfold outputStep
      rw [hout]
    constructor
    · rw [hintr, hturn, houtev]
      simp only []
      rw [hcur]
    · simp only [outTransEvents_append, outTransEvents_audioStep,
        outTransEvents_inputStep, outTransEvents_toolStep,
        outTransEvents_turnStep, outTransEvents_interruptStep, houtev,
        List.append_nil, List.nil_append]
      simp [outTransEvents, hcur]

theorem inputTrace :
    ∀ (msgs : List (ℚ × ServerMessage)) (st : LiveState),
      st.isConnected = true →
      (∀ p ∈ msgs, p.2.turnComplete = false) →
      inTransEvents (handleTrace st msgs).2 =
        cumConcat st.currentInputTranscription
          (msgs.filterMap (fun p => p.2.inputTranscription)) := by
  intro msgs
  induction msgs with
  | nil =>
      intro st _ _
      simp [handleTrace, inTransEvents, cumConcat]
  | cons p rest ih =>
      rcases p with ⟨t, m⟩
      intro st hconn hall
      have hm : m.turnComplete = false := hall (t, m) (by simp)
      have hrest : ∀ q ∈ rest, q.2.turnComplete = false :=
        fun q hq => hall q (by simp [hq])
      have hpres := handleMessage_pres t st m hconn
      have hchar := handleMessage_inTrans t st m hconn hm
      have hih := ih (handleMessage t st m).1 (by rw [hpres.1, hconn]) hrest
      rw [handleTrace_cons, inTransEvents_append]
      rcases hin : m.inputTranscription with _ | f
      · have h1 := hchar.1 hin
        rw [h1.2, List.nil_append, hih, h1.1]
        simp [List.filterMap_cons, hin]
      · have h1 := hchar.2 f hin
        rw [h1.2, hih, h1.1]
        simp [List.filterMap_cons, hin, cumConcat]

theorem outputTrace :
    ∀ (msgs : List (ℚ × ServerMessage)) (st : LiveState),
      st.isConnected = true →
      (∀ p ∈ msgs, p.2.turnComplete = false ∧ p.2.interrupted = false) →
      outTransEvents (handleTrace st msgs).2 =
        cumConcat st.currentOutputTranscription
          (msgs.filterMap (fun p => p.2.outputTranscription)) := by
  intro msgs
  induction msgs with
  | nil =>
      intro st _ _
      simp [handleTrace, outTransEvents, cumConcat]
  | cons p rest ih =>
      rcases p with ⟨t, m⟩
      intro st hconn hall
      have hm := hall (t, m) (by simp)
      have hrest : ∀ q ∈ rest, q.2.turnComplete = false ∧ q.2.interrupted = false :=
        fun q hq => hall q (by simp [hq])
      have hpres := handleMessage_pres t st m hconn
      have hchar := handleMessage_outTrans t st m hconn hm.1 hm.2
      have hih := ih (handleMessage t st m).1 (by rw [hpres.1, hconn]) hrest
      rw [handleTrace_cons, outTransEvents_append]
      rcases hout : m.outputTranscription with _ | f
      · have h1 := hchar.1 hout
        rw [h1.2, List.nil_append, hih, h1.1]
        simp [List.filterMap_cons, hout]
      · have h1 := hchar.2 f hout
        rw [h1.2, hih, h1.1]
        simp [List.filterMap_cons, hout, cumConcat]

theorem handleMessage_turn (t : ℚ) (st : LiveState) (m : ServerMessage)
    (hconn : st.isConnected = true) (htc : m.turnComplete = true) :
    Event.onTurnComplete ∈ (handleMessage t st m).2 ∧
    (handleMessage t st m).1.currentInputTranscription = "" ∧
    (handleMessage t st m).1.currentOutputTranscription = "" := by
  rw [handleMessage_eq t st m hconn]
  have hturn := turnStep_yes (outputStep (inputStep (audioStep t st m).1 m).1
    m).1 m htc
  have hiIr := interruptStep_fields (turnStep (outputStep (inputStep (audioStep
    t st m).1 m).1 m).1 m).1 m
  refine ⟨?_, ?_, ?_⟩
  · rw [hturn]
    simp
  · rw [hiIr.2.2.2, hturn]
  · by_cases hint : m.interrupted = true
    · rw [interruptStep_yes _ m hint]
    · rw [interruptStep_not _ m (by simpa using hint), hturn]

/-- C3 counterexample: from a fresh connected state, the trace fragment a,
then an interruption, then fragment b contains no turn completion, yet the
second output-transcription callback reports b alone, not the
concatenation ab of the two fragments seen since the last turn
completion. -/
theorem c3_counterexample :
    (∀ p ∈ c3msgs, p.2.turnComplete = false) ∧
    stLive.isConnected = true ∧
    outTransEvents (handleTrace stLive c3msgs).2 = ["a", "b"] ∧
    outTransEvents (handleTrace stLive c3msgs).2 ≠ ["a", "ab"] := by
  refine ⟨by decide, rfl, ?_, ?_⟩ <;> decide

/-- C3 amended: input-transcription callbacks report the cumulative
concatenations of the input fragments across any turn-completion-free
trace; output-transcription callbacks do the same provided no interrupted
message intervenes (an interruption additionally clears the output
accumulator); and a message carrying turnComplete raises onTurnComplete
and leaves both accumulators empty. -/
theorem c3_transcripts_amended :
    (∀ (msgs : List (ℚ × ServerMessage)) (st : LiveState),
       st.isConnected = true →
       (∀ p ∈ msgs, p.2.turnComplete = false) →
       inTransEvents (handleTrace st msgs).2 =
         cumConcat st.currentInputTranscription
           (msgs.filterMap (fun p => p.2.inputTranscription))) ∧
    (∀ (msgs : List (ℚ × ServerMessage)) (st : LiveState),
       st.isConnected = true →
       (∀ p ∈ msgs, p.2.turnComplete = false ∧ p.2.interrupted = false) →
       outTransEvents (handleTrace st msgs).2 =
         cumConcat st.currentOutputTranscription
           (msgs.filterMap (fun p => p.2.outputTranscription))) ∧
    (∀ (t : ℚ) (st : LiveState) (m : ServerMessage),
       st.isConnected = true → m.turnComplete = true →
       Event.onTurnComplete ∈ (handleMessage t st m).2 ∧
       (handleMessage t st m).1.currentInputTranscription = "" ∧
       (handleMessage t st m).1.currentOutputTranscription = "") :=
  ⟨inputTrace, outputTrace, handleMessage_turn⟩

/-- Witness for C3 on concrete traces and a turn-completing message. -/
theorem c3_w :
    inTransEvents (handleTrace stLive [(0, ⟨none, some "hi", none, none,
        false, false⟩), (0, ⟨none, some " there", none, none, false,
        false⟩)]).2 = ["hi", "hi there"] ∧
    Event.onTurnComplete ∈
      (handleMessage 0 stLive ⟨none, none, none, none, true, false⟩).2 := by
  constructor
  · rw [c3_transcripts_amended.1 [(0, ⟨none, some "hi", none, none, false,
      false⟩), (0, ⟨none, some " there", none, none, false, false⟩)] stLive
      rfl (by decide)]
    decide
  · exact (c3_transcripts_amended.2.2 0 stLive ⟨none, none, none, none, true,
      false⟩ rfl rfl).1

/-! Interruption lemmas for C2 -/

theorem inputStep_not (st : LiveState) (m : ServerMessage)
    (h : m.inputTranscription = none) : inputStep st m = (st, []) := by
  unfold inputStep
  rw [h]

/-- C2 counterexample: a message with interrupted set that also carries an
input-transcription fragment changes the accumulated input transcription,
which the claim asserts is left unchanged for every interrupted message. -/
theorem c2_counterexample :
    stC2.isConnected = true ∧ mC2.interrupted = true ∧
    (handleMessage 0 stC2 mC2).1.currentInputTranscription ≠
      stC2.currentInputTranscription := by
  refine ⟨rfl, rfl, ?_⟩
  decide

/-- C2 amended: a connected client handling an interrupted message that
carries neither an input-transcription fragment nor a turn completion
stops every source of its sources set, empties the set, resets
nextStartTime to zero and clears the output transcription, while the
input transcription, the session and the connected flag are unchanged. -/
theorem c2_interrupted_amended :
    ∀ (t : ℚ) (st : LiveState) (m : ServerMessage),
      st.isConnected = true → m.interrupted = true →
      m.inputTranscription = none → m.turnComplete = false →
      (∀ i ∈ st.sources, Event.stopSource i ∈ (handleMessage t st m).2) ∧
      (handleMessage t st m).1.sources = [] ∧
      (handleMessage t st m).1.nextStartTime = 0 ∧
      (handleMessage t st m).1.currentOutputTranscription = "" ∧
      (handleMessage t st m).1.currentInputTranscription =
        st.currentInputTranscription ∧
      (handleMessage t st m).1.session = st.session ∧
      (handleMessage t st m).1.isConnected = true := by
  intro t st m hconn hint hin htc
  have hpres := handleMessage_pres t st m hconn
  have ha := audioStep_fields t st m
  have hasrc := audioStep_sources t st m
  have hinot := inputStep_not (audioStep t st m).1 m hin
  have ho := outputStep_fields (inputStep (audioStep t st m).1 m).1 m
  have hturn := turnStep_not (outputStep (inputStep (audioStep t st m).1 m).1
    m).1 m htc
  have hsrc3 : (outputStep (inputStep (audioStep t st m).1 m).1 m).1.sources =
      (audioStep t st m).1.sources := by
    rw [ho.2.2.2.2.1, hinot]
  have hcur3 : (outputStep (inputStep (audioStep t st m).1 m).1
      m).1.currentInputTranscription = st.currentInputTranscription := by
    rw [ho.2.2.2.2.2, hinot, ha.2.2.2.1]
  refine ⟨?_, ?_, ?_, ?_, ?_, hpres.2.1, by rw [hpres.1, hconn]⟩
  · intro i hi
    rw [handleMessage_eq t st m hconn, hturn]
    simp only [List.mem_append]
    refine Or.inr (Or.inr (Or.inr (Or.inr (Or.inr ?_))))
    rw [interruptStep_yes _ m hint]
    simp only [hturn, hsrc3]
    exact List.mem_map.mpr ⟨i, hasrc i hi, rfl⟩
  · rw [handleMessage_eq t st m hconn]
    simp only [hturn]
    rw [interruptStep_yes _ m hint]
  · rw [handleMessage_eq t st m hconn]
    simp only [hturn]
    rw [interruptStep_yes _ m hint]
  · rw [handleMessage_eq t st m hconn]
    simp only [hturn]
    rw [interruptStep_yes _ m hint]
  · rw [handleMessage_eq t st m hconn]
    simp only [hturn]
    rw [interruptStep_yes _ m hint]
    simp only []
    exact hcur3

/-- Witness for C2 on a concrete interrupted message and a state holding
one source. -/
theorem c2_w :
    (∀ i ∈ stC2.sources, Event.stopSource i ∈ (handleMessage 0 stC2 mIntr).2) ∧
    (handleMessage 0 stC2 mIntr).1.sources = [] ∧
    (handleMessage 0 stC2 mIntr).1.nextStartTime = 0 ∧
    (handleMessage 0 stC2 mIntr).1.currentOutputTranscription = "" ∧
    (handleMessage 0 stC2 mIntr).1.currentInputTranscription =
      stC2.currentInputTranscription ∧
    (handleMessage 0 stC2 mIntr).1.session = stC2.session ∧
    (handleMessage 0 stC2 mIntr).1.isConnected = true :=
  c2_interrupted_amended 0 stC2 mIntr rfl rfl rfl rfl

/-! Tool-call lemmas for C4 -/

theorem toolEvts_audioStep (t : ℚ) (st : LiveState) (m : ServerMessage) :
    toolEvts (audioStep t st m).2 = [] := by
  rcases audioStep_events t st m with h | ⟨a, s2, d, i, h⟩ <;>
    simp [h, toolEvts]

theorem toolEvts_inputStep (st : LiveState) (m : ServerMessage) :
    toolEvts (inputStep st m).2 = [] := by
  rcases inputStep_events st m with h | ⟨s, h⟩ <;> simp [h, toolEvts]

theorem toolEvts_outputStep (st : LiveState) (m : ServerMessage) :
    toolEvts (outputStep st m).2 = [] := by
  rcases outputStep_events st m with h | ⟨s, h⟩ <;> simp [h, toolEvts]

theorem toolEvts_turnStep (st : LiveState) (m : ServerMessage) :
    toolEvts (turnStep st m).2 = [] := by
  rcases turnStep_events st m with h | h <;> simp [h, toolEvts]

theorem toolEvts_interruptStep (st : LiveState) (m : ServerMessage) :
    toolEvts (interruptStep st m).2 = [] := by
  rcases interruptStep_events st m with ⟨l, h⟩
  rw [h, toolEvts_stops]

theorem toolEvts_toolStep (st : LiveState) (m : ServerMessage) :
    toolEvts (toolStep st m) = toolStep st m := by
  apply filterMap_id_of
  intro e he
  rcases toolStep_shape st m e he with ⟨d, rfl⟩ | ⟨a, b, c, rfl⟩ <;> rfl

/-- C4: a connected client with a live session handling a message with
function calls raises, per call and in order, exactly one onExplanation
with the arguments' fields defaulted to the empty string followed by
exactly one tool response with the call's id, its name and the body
result ok when the call is named provideBilingualDetails, and nothing at
all for a call with any other name. -/
theorem c4_tool_calls :
    ∀ (t : ℚ) (st : LiveState) (m : ServerMessage) (calls : List FunctionCall),
      st.isConnected = true → st.session = true → m.toolCall = some calls →
      toolEvts (handleMessage t st m).2 =
        (calls.map (fun fc =>
          if fc.name = "provideBilingualDetails" then
            [Event.onExplanation ⟨fc.args.botTranslation.getD "",
               fc.args.userOriginal.getD "",
               fc.args.userEnglishTranslation.getD ""⟩,
             Event.toolResponse fc.callId fc.name "ok"]
          else [])).flatten := by
  intro t st m calls hconn hsess hcalls
  have ha := audioStep_fields t st m
  have hi := inputStep_fields (audioStep t st m).1 m
  have ho := outputStep_fields (inputStep (audioStep t st m).1 m).1 m
  have hs : (outputStep (inputStep (audioStep t st m).1 m).1 m).1.session = true := by
    rw [ho.2.1, hi.2.1, ha.2.1, hsess]
  rw [handleMessage_eq t st m hconn]
  simp only [toolEvts_append, toolEvts_audioStep, toolEvts_inputStep,
    toolEvts_outputStep, toolEvts_turnStep, toolEvts_interruptStep,
    toolEvts_toolStep, List.nil_append, List.append_nil]
  unfold toolStep
  rw [hcalls, hs]
  congr 1

/-- Witness for C4 on a message carrying one matching and one foreign
function call. -/
theorem c4_w :
    toolEvts (handleMessage 0 stLive mTool).2 =
      ([fcSample, fcOther].map (fun fc =>
        if fc.name = "provideBilingualDetails" then
          [Event.onExplanation ⟨fc.args.botTranslation.getD "",
             fc.args.userOriginal.getD "",
             fc.args.userEnglishTranslation.getD ""⟩,
           Event.toolResponse fc.callId fc.name "ok"]
        else [])).flatten :=
  c4_tool_calls 0 stLive mTool [fcSample, fcOther] rfl rfl rfl

/-- C7: after disconnect the connected flag and every resource flag are
cleared; the audio-process handler sends nothing whenever the client is
not connected or the session is gone; and handleMessage leaves the state
untouched and performs no effect whenever the client is not connected. -/
theorem c7_disconnected_inert :
    (∀ st : LiveState,
       (disconnect st).1.isConnected = false ∧
       (disconnect st).1.session = false ∧
       (disconnect st).1.mediaStream = false ∧
       (disconnect st).1.inputCtx = false ∧
       (disconnect st).1.outputCtx = false) ∧
    (∀ (st : LiveState) (inputData : List ℚ),
       st.isConnected = false ∨ st.session = false →
       onAudioProcess st inputData = []) ∧
    (∀ (t : ℚ) (st : LiveState) (m : ServerMessage),
       st.isConnected = false → handleMessage t st m = (st, [])) := by
  refine ⟨fun st => ⟨rfl, rfl, rfl, rfl, rfl⟩, ?_, ?_⟩
  · intro st inputData h
    unfold onAudioProcess
    rw [if_pos h]
  · intro t st m h
    exact handleMessage_not_connected t st m h

/-- Witness for C7 on a disconnected state. -/
theorem c7_w :
    onAudioProcess stDisc [] = [] ∧
    handleMessage 0 stDisc mEmpty = (stDisc, []) :=
  ⟨c7_disconnected_inert.2.1 stDisc [] (Or.inl rfl),
   c7_disconnected_inert.2.2 0 stDisc mEmpty rfl⟩

/-- C9: connect with the API key unset reports only API Key missing and
touches nothing, neither requesting the microphone nor creating contexts
nor opening a session; and connect hitting an exception after any partial
resource acquisition ends fully disconnected, with the cleanup
onDisconnected of its disconnect call followed by onError with that
exception. -/
theorem c9_connect_errors :
    (∀ (ext : ConnectExt) (st : LiveState),
       connect none ext st = (st, [Event.onError "API Key missing"])) ∧
    (∀ (key : String) (g : LiveState → LiveState) (e : String) (st : LiveState),
       key.length ≠ 0 →
       (connect (some key) (ConnectExt.failWith g e) st).1.isConnected = false ∧
       (connect (some key) (ConnectExt.failWith g e) st).1.session = false ∧
       (connect (some key) (ConnectExt.failWith g e) st).1.mediaStream = false ∧
       (connect (some key) (ConnectExt.failWith g e) st).1.inputCtx = false ∧
       (connect (some key) (ConnectExt.failWith g e) st).1.outputCtx = false ∧
       (connect (some key) (ConnectExt.failWith g e) st).2 =
         [Event.requestMic, Event.onDisconnected, Event.onError e]) := by
  constructor
  · intro ext st
    rfl
  · intro key g e st hk
    unfold connect
    rw [if_neg (by simpa using hk)]
    exact ⟨rfl, rfl, rfl, rfl, rfl, rfl⟩

/-- Witness for C9 with a missing key and with a failing connection. -/
theorem c9_w :
    connect none ConnectExt.ok stDisc =
      (stDisc, [Event.onError "API Key missing"]) ∧
    (connect (some "k") (ConnectExt.failWith id "boom") stDisc).2 =
      [Event.requestMic, Event.onDisconnected, Event.onError "boom"] :=
  ⟨c9_connect_errors.1 ConnectExt.ok stDisc,
   (c9_connect_errors.2 "k" id "boom" stDisc (by decide)).2.2.2.2.2⟩

/-- C10: while live mode is active, handleSubmit never calls onSend
whatever the typed text and loading state, the message textarea is
disabled, the language-menu toggle is disabled, and clicking it leaves
the menu state unchanged. -/
theorem c10_live_mode_locks :
    ∀ (input : String) (isLoading menuOpen : Bool),
      handleSubmit input isLoading true = none ∧
      textareaDisabled isLoading true = true ∧
      langButtonDisabled true = true ∧
      langMenuToggle true menuOpen = menuOpen := by
  intro input isLoading menuOpen
  refine ⟨?_, ?_, rfl, rfl⟩
  · unfold handleSubmit
    rw [if_neg]
    intro h
    simp at h
  · unfold textareaDisabled
    simp

end LinguaFriend
